import Mathlib

/-!
Shallow embedding of `src/solution.js`: exact base-N string decoding into
arbitrary-precision integers (`parseBigInt`), decoding of the parsed JSON
structure into points (`decodeFromJSON`), and reconstruction of a polynomial's
constant term by exact-integer Lagrange interpolation at zero
(`findConstantWithLagrange`), together with the solve phase of `main`.

JS `BigInt` values are embedded as `ℤ`; JS BigInt division truncates toward
zero and throws on a zero divisor, so division sites return `Option`.
Exceptions thrown and later caught are modelled as `none`.
-/

namespace PolySolution

/-- A decoded point: `x` is the numeric index key, `y` the decoded value
(both JS BigInt, embedded as `ℤ`). -/
structure Point where
  x : Int
  y : Int
deriving Repr, DecidableEq

/-- JS BigInt division: truncation toward zero (`Int.tdiv`). -/
def jsBigIntDiv (a b : Int) : Int := Int.tdiv a b

/-- Model of `arr.slice(0, e)` on a JS array: a negative `e` counts from the
end (clamped at 0), a non-negative `e` truncates to the first `e` elements. -/
def jsSliceToEnd (l : List Point) (e : Int) : List Point :=
  if e < 0 then l.take (l.length - (-e).toNat) else l.take e.toNat

/-- Inner loop of `findConstantWithLagrange` (source lines 163-178): starting
from `termNumerator = y_j` and `termDenominator = 1n`, multiply for every
index `i ≠ j` by `x_i` into the numerator and by `x_i - x_j` into the
denominator. -/
def lagrangeTermND (sel : List Point) (j : Nat) : Int × Int :=
  (List.range sel.length).foldl
    (fun nd i =>
      if i = j then nd
      else (nd.1 * (sel.getD i ⟨0, 0⟩).x,
            nd.2 * ((sel.getD i ⟨0, 0⟩).x - (sel.getD j ⟨0, 0⟩).x)))
    ((sel.getD j ⟨0, 0⟩).y, 1)

/-- Outer loop of `findConstantWithLagrange` (source lines 154-185): starting
from `constantC = 0n`, accumulate `termNumerator / termDenominator` for each
selected index `j`. JS BigInt division by `0n` throws a RangeError that aborts
the whole computation, modelled as `none`. -/
def lagrangeOnSelected (sel : List Point) : Option Int :=
  (List.range sel.length).foldl
    (fun acc? j =>
      acc?.bind fun acc =>
        let nd := lagrangeTermND sel j
        if nd.2 = 0 then none else some (acc + jsBigIntDiv nd.1 nd.2))
    (some 0)

/-- Embedding of `findConstantWithLagrange(allPoints, k)` (source lines
148-186): select `allPoints.slice(0, k)` and run the Lagrange accumulation on
the selected points. -/
def findConstantWithLagrange (allPoints : List Point) (k : Int) : Option Int :=
  lagrangeOnSelected (jsSliceToEnd allPoints k)

/-- Model of JS `parseInt(c, 36)` applied to one character `c` (source line
33): the digit value of an ASCII alphanumeric character under the alphabet
0-9 then a-z, case-insensitive; `none` (NaN) for every other character. -/
def parseIntDigit? (c : Char) : Option Nat :=
  if '0' ≤ c ∧ c ≤ '9' then some (c.toNat - 48)
  else if 'a' ≤ c ∧ c ≤ 'z' then some (c.toNat - 97 + 10)
  else if 'A' ≤ c ∧ c ≤ 'Z' then some (c.toNat - 65 + 10)
  else none

/-- Embedding of `parseBigInt(str, base)` (source lines 27-37): the left fold
`result = result * base + BigInt(parseInt(char, 36))` over the characters.
`BigInt(NaN)` throws a RangeError, modelled as `none`. The source performs no
digit-range, emptiness or base-range check. -/
def parseBigInt (s : String) (base : Int) : Option Int :=
  s.data.foldlM
    (fun result c => (parseIntDigit? c).map fun (d : Nat) => result * base + (d : Int)) 0

/-- Spec-side digit value (spec section 4.1): the character's position in the
conventional alphabet 0-9 then a-z, case-insensitive; `none` when the
character is not alphanumeric. -/
def specDigitVal? (c : Char) : Option Nat :=
  if '0' ≤ c ∧ c ≤ '9' then some (c.toNat - 48)
  else if 'a' ≤ c ∧ c ≤ 'z' then some (c.toNat - 97 + 10)
  else if 'A' ≤ c ∧ c ≤ 'Z' then some (c.toNat - 65 + 10)
  else none

/-- Spec-side standard positional-value interpretation (spec section 4.1):
result starts at 0 and each character contributes
`result = result * b + digitValue(character)`, left-to-right. Total function;
meaningful when every character is a valid digit. -/
def positionalValue (s : String) (b : Int) : Int :=
  s.data.foldl (fun r c => r * b + (((specDigitVal? c).getD 0 : Nat) : Int)) 0

/-- Spec-side Lagrange term (spec section 4.3, step 2): the truncating integer
quotient of `y_j * Π_{i ≠ j} x_i` by `Π_{i ≠ j} (x_i - x_j)`, over the
selected indices. -/
def lagrangeSpecTerm (sel : List Point) (j : Nat) : Int :=
  jsBigIntDiv
    ((sel.getD j ⟨0, 0⟩).y *
      ∏ i ∈ (Finset.range sel.length).erase j, (sel.getD i ⟨0, 0⟩).x)
    (∏ i ∈ (Finset.range sel.length).erase j,
      ((sel.getD i ⟨0, 0⟩).x - (sel.getD j ⟨0, 0⟩).x))

/-- Spec-side value of solving (spec section 4.3): sum of the per-point
truncated quotients over the first `k` points. -/
def lagrangeSpecSum (pts : List Point) (k : Nat) : Int :=
  ∑ j ∈ Finset.range (pts.take k).length, lagrangeSpecTerm (pts.take k) j

/-- A raw point entry as parsed from JSON: `base` and `value` string fields,
either possibly missing. -/
structure RawPointEntry where
  base : Option String
  value : Option String
deriving Repr, DecidableEq

/-- A raw parsed-JSON object as consumed by `decodeFromJSON`: the value at the
"keys" field (`none` when that field is absent, `some kv` with `kv` the
possibly-missing integer `k`), and the remaining fields as key/entry pairs in
declaration (insertion) order. Modelled for the shapes the program reads:
`k` is an integer when present. -/
structure RawData where
  keysK : Option (Option Int)
  entries : List (String × RawPointEntry)
deriving Repr, DecidableEq

/-- Numeric value of a list of decimal digit characters. -/
def natOfDecDigits (cs : List Char) : Nat :=
  cs.foldl (fun n c => n * 10 + (c.toNat - 48)) 0

/-- Model of the JS test `!isNaN(key)` (source line 122), i.e. `Number(key)`
is not NaN, for the key shapes relevant here: the empty string and plain
optionally-minus-signed decimal literals (digits with at most one dot) are
numeric; a string holding any other character is not. Exponents, hex forms,
a plus sign and whitespace are outside the modelled subset. -/
def jsIsNumericStr (s : String) : Bool :=
  if s.data.isEmpty then true
  else
    let cs := if s.data.head? = some '-' then s.data.tail else s.data
    !cs.isEmpty && cs.all (fun c => c.isDigit || c = '.') &&
      decide (cs.count '.' ≤ 1) && cs.any Char.isDigit

/-- Model of JS `BigInt(key)` on a string key (source line 124): the empty
string is 0, an optionally-minus-signed nonempty run of decimal digits is its
value, and anything else throws a SyntaxError (`none`). Hex/octal/binary
forms, a plus sign and whitespace are outside the modelled subset. -/
def jsBigIntStr? (s : String) : Option Int :=
  if s.data.isEmpty then some 0
  else if s.data.head? = some '-' then
    if !s.data.tail.isEmpty && s.data.tail.all Char.isDigit then
      some (-(natOfDecDigits s.data.tail : Int))
    else none
  else if s.data.all Char.isDigit then some ((natOfDecDigits s.data : Int))
  else none

/-- Model of JS `parseInt(s, 10)` (source line 125): parse the longest leading
run of decimal digits, NaN (`none`) when there is none. Signs and whitespace
are outside the modelled subset. -/
def jsParseInt10? (s : String) : Option Int :=
  let ds := s.data.takeWhile Char.isDigit
  if ds.isEmpty then none else some ((natOfDecDigits ds : Int))

/-- An ECMAScript array-index property key: the canonical decimal form (no
leading zero, except the key "0" itself) of an integer below 2^32 - 1. -/
def isArrayIndexKey (s : String) : Bool :=
  !s.data.isEmpty && s.data.all Char.isDigit &&
    (s = "0" || s.data.head? ≠ some '0') &&
    decide (natOfDecDigits s.data < 4294967295)

/-- ECMAScript own-property enumeration order, the order `for (const key in
data)` visits the keys (source line 121): array-index keys first, in ascending
numeric order, then all remaining keys in insertion order. -/
def jsOwnKeysOrder (entries : List (String × RawPointEntry)) :
    List (String × RawPointEntry) :=
  (entries.filter fun e => isArrayIndexKey e.1).insertionSort
      (fun a b => natOfDecDigits a.1.data ≤ natOfDecDigits b.1.data)
    ++ entries.filter fun e => !isArrayIndexKey e.1

/-- The decoded data handed to the solve phase: the `k` read from the "keys"
object (`none` models JS `undefined`) and the decoded points in push order. -/
structure ProcessedData where
  k : Option Int
  points : List Point
deriving Repr, DecidableEq

/-- One iteration of the decoding loop (source lines 123-128), for an entry
that passed the numeric-key test: `x = BigInt(key)` (throws on an unparseable
key); `base = parseInt(entry.base, 10)`, which is NaN when the field is
missing or digit-free, making `BigInt(NaN)` throw inside `parseBigInt`;
`y = parseBigInt(entry.value, base)`, where reading `length` of a missing
value throws. Every throw is modelled as `none`. -/
def decodeEntry? (key : String) (e : RawPointEntry) : Option Point :=
  (jsBigIntStr? key).bind fun x =>
    ((e.base.bind jsParseInt10?).bind fun b =>
      e.value.bind fun vs => parseBigInt vs b).map fun y => ⟨x, y⟩

/-- Embedding of `decodeFromJSON(data)` (source lines 114-138): read
`data.keys.k` (reading `.k` of a missing "keys" object throws a TypeError),
then visit every own key in enumeration order, keep the keys passing
`!isNaN(key)`, decode each entry into a point and push it. Any exception is
caught and the function returns null (`none`). No check on `k` itself is
performed. -/
def decodeFromJSON (raw : RawData) : Option ProcessedData :=
  match raw.keysK with
  | none => none
  | some kv =>
    (((jsOwnKeysOrder raw.entries).filter fun e => jsIsNumericStr e.1).foldlM
        (fun pts e => (decodeEntry? e.1 e.2).map fun p => pts ++ [p]) []).map
      fun pts => ⟨kv, pts⟩

/-- The observable outcomes of the solve phase of `main`. -/
inductive MainOutcome where
  | insufficientPoints : MainOutcome
  | solved : Int → MainOutcome
  | criticalError : MainOutcome
deriving Repr, DecidableEq

/-- Embedding of the solve phase of `main` (source lines 208-220): when
`points.length < k` report the insufficient-points error and produce no
result; otherwise run `findConstantWithLagrange(points, k)` (a RangeError
thrown there is caught by `main` as a critical error, again with no result).
A missing `k` (JS `undefined`) makes the `<` comparison false and
`slice(0, undefined)` selects the whole array. -/
def solvePhase (pd : ProcessedData) : MainOutcome :=
  match pd.k with
  | some k =>
    if (pd.points.length : Int) < k then .insufficientPoints
    else
      match findConstantWithLagrange pd.points k with
      | some c => .solved c
      | none => .criticalError
  | none =>
    match findConstantWithLagrange pd.points (pd.points.length : Int) with
    | some c => .solved c
    | none => .criticalError

end PolySolution

namespace PolySolution

example : findConstantWithLagrange [⟨1, 10⟩, ⟨2, 13⟩] 2 = some 7 := by decide
example : findConstantWithLagrange [⟨1, 4⟩, ⟨2, 7⟩, ⟨3, 12⟩] 3 = some 3 := by decide
example : parseBigInt "2" 2 = some 2 := by decide
example : parseBigInt "ff" 16 = some 255 := by decide
example : parseBigInt "1010" 2 = some 10 := by decide
example : parseBigInt "" 5 = some 0 := by decide
example : lagrangeSpecSum [⟨1, 10⟩, ⟨2, 13⟩] 2 = 7 := by decide

-- keys object present, k missing: decode succeeds (C6 probe)
example : decodeFromJSON ⟨some none, []⟩ = some ⟨none, []⟩ := by decide
-- keys object present, k = 0 (not a positive integer): decode succeeds
example : decodeFromJSON ⟨some (some 0), []⟩ = some ⟨some 0, []⟩ := by decide
-- keys object missing: decode fails
example : decodeFromJSON ⟨none, []⟩ = none := by decide
-- declaration order "2" before "1": points come out numerically sorted (C7 probe)
example :
    decodeFromJSON
      ⟨some (some 2),
        [("2", ⟨some "10", some "7"⟩), ("1", ⟨some "10", some "4"⟩)]⟩ =
      some ⟨some 2, [⟨1, 4⟩, ⟨2, 7⟩]⟩ := by decide
-- a numeric-looking key "1.5" that BigInt rejects: decode fails
example :
    decodeFromJSON ⟨some (some 1), [("1.5", ⟨some "10", some "4"⟩)]⟩ = none := by
  decide
-- missing base field: decode fails
example :
    decodeFromJSON ⟨some (some 1), [("1", ⟨none, some "4"⟩)]⟩ = none := by decide
-- missing value field: decode fails
example :
    decodeFromJSON ⟨some (some 1), [("1", ⟨some "10", none⟩)]⟩ = none := by decide
-- insufficient points (C5 probe)
example : solvePhase ⟨some 3, [⟨1, 10⟩, ⟨2, 13⟩]⟩ = .insufficientPoints := by decide

/-! Helper lemmas shared by the claim theorems. -/

/-- The source's per-character `parseInt(c, 36)` computes exactly the
spec-side digit value. -/
theorem parseIntDigit_eq_spec : parseIntDigit? = specDigitVal? := rfl

/-- The `parseBigInt` fold fails exactly when some character is not an ASCII
alphanumeric (so `parseInt(char, 36)` is NaN and `BigInt(NaN)` throws). -/
theorem parseBigInt_fold_none_iff (cs : List Char) (b : Int) (acc : Int) :
    (cs.foldlM
        (fun result c => (parseIntDigit? c).map fun (d : Nat) => result * b + (d : Int))
        acc) = none ↔
      ∃ c ∈ cs, parseIntDigit? c = none := by
  induction cs generalizing acc with
  | nil => simp
  | cons c cs ih =>
    rw [List.foldlM_cons]
    cases h : parseIntDigit? c with
    | none =>
      exact iff_of_true rfl ⟨c, List.mem_cons_self c cs, h⟩
    | some d =>
      constructor
      · intro hnone
        obtain ⟨c', hc', hn⟩ := (ih (acc * b + (d : Int))).mp hnone
        exact ⟨c', List.mem_cons_of_mem _ hc', hn⟩
      · rintro ⟨c', hc', hn⟩
        rcases List.mem_cons.mp hc' with rfl | hmem
        · rw [h] at hn; cases hn
        · exact (ih (acc * b + (d : Int))).mpr ⟨c', hmem, hn⟩

/-- When every character has a spec-side digit value, the Option-threaded
`parseBigInt` fold agrees with the total positional-accumulation fold. -/
theorem parseBigInt_fold_eq_positional (cs : List Char) (b : Int) (acc : Int)
    (hd : ∀ c ∈ cs, (specDigitVal? c).isSome) :
    (cs.foldlM
        (fun result c => (parseIntDigit? c).map fun (d : Nat) => result * b + (d : Int))
        acc) =
      some (cs.foldl
        (fun r c => r * b + (((specDigitVal? c).getD 0 : Nat) : Int)) acc) := by
  induction cs generalizing acc with
  | nil => rfl
  | cons c cs ih =>
    obtain ⟨d, hdc⟩ :=
      Option.isSome_iff_exists.mp (hd c (List.mem_cons_self c cs))
    have hpc : parseIntDigit? c = some d := by
      rw [parseIntDigit_eq_spec]; exact hdc
    rw [List.foldlM_cons, List.foldl_cons, hpc, hdc]
    exact ih _ (fun c' hc' => hd c' (List.mem_cons_of_mem _ hc'))

/-! Claim theorems. -/

/-- C2: for every base `b` in [2,36] and non-empty string whose characters all
have a digit value (alphabet 0-9 then a-z, case-insensitive) strictly below
`b`, `parseBigInt` returns exactly the standard positional-value
interpretation (the left fold of `result * b + digitValue`), with no
precision loss. -/
theorem claim2_decode_positional (s : String) (b : Int)
    (hb1 : 2 ≤ b) (hb2 : b ≤ 36) (hs : s ≠ "")
    (hdigits : ∀ c ∈ s.data,
      (specDigitVal? c).isSome ∧ (((specDigitVal? c).getD 0 : Nat) : Int) < b) :
    parseBigInt s b = some (positionalValue s b) :=
  parseBigInt_fold_eq_positional s.data b 0 fun c hc => (hdigits c hc).1

/-- Witness for C2 at the spec's own examples: `"ff"` in base 16 decodes to
255 and `"1010"` in base 2 decodes to 10. -/
theorem claim2_witness :
    ((2 : Int) ≤ 16 ∧ (16 : Int) ≤ 36 ∧ ("ff" : String) ≠ "" ∧
      (∀ c ∈ ("ff" : String).data,
        (specDigitVal? c).isSome ∧ (((specDigitVal? c).getD 0 : Nat) : Int) < 16)) ∧
    parseBigInt "ff" 16 = some (positionalValue "ff" 16) ∧
    positionalValue "ff" 16 = 255 ∧
    parseBigInt "1010" 2 = some 10 :=
  ⟨⟨by decide, by decide, by decide, by decide⟩,
    claim2_decode_positional "ff" 16 (by decide) (by decide) (by decide) (by decide),
    by decide, by decide⟩

/-- C3 counterexample: on the points (1,4), (2,7), (3,12) with k = 3 the code
returns 3, not the 1 the spec announces (those points do not lie on
`x^2 + 2x + 1`; they lie on `x^2 + 3`). -/
theorem claim3_counterexample :
    findConstantWithLagrange [⟨1, 4⟩, ⟨2, 7⟩, ⟨3, 12⟩] 3 = some 3 ∧
    (some 3 : Option Int) ≠ some 1 := by decide

/-- C3 amended: for the input points (1,4), (2,7), (3,12) with k = 3, solve
returns the constant term 3; these points fit `P(x) = x^2 + 3`, whose value at
0 is 3. -/
theorem claim3_amended :
    findConstantWithLagrange [⟨1, 4⟩, ⟨2, 7⟩, ⟨3, 12⟩] 3 = some 3 ∧
    ∀ p ∈ ([⟨1, 4⟩, ⟨2, 7⟩, ⟨3, 12⟩] : List Point), p.y = p.x ^ 2 + 3 := by
  decide

/-- C4 counterexample: `decode("2", 2)` does not fail — it returns the integer
2 although the digit value 2 is not below the base 2; the empty string and an
out-of-range base do not fail either. -/
theorem claim4_counterexample :
    parseBigInt "2" 2 = some 2 ∧ (some 2 : Option Int) ≠ none ∧
    parseBigInt "" 2 = some 0 ∧
    parseBigInt "ff" 37 = some 570 := by decide

/-- C4 amended: `parseBigInt` performs no digit-range, emptiness or base-range
validation; it fails exactly when some character of the string is not an ASCII
alphanumeric, i.e. when `parseInt(char, 36)` is NaN and `BigInt(NaN)`
throws. -/
theorem claim4_amended (s : String) (b : Int) :
    parseBigInt s b = none ↔ ∃ c ∈ s.data, parseIntDigit? c = none :=
  parseBigInt_fold_none_iff s.data b 0

/-- C5: whenever fewer points are decoded than the declared threshold `k`, the
solve phase of `main` reports the insufficient-points error and produces no
constant-term result. -/
theorem claim5_insufficient_points (pts : List Point) (k : Int)
    (h : (pts.length : Int) < k) :
    solvePhase ⟨some k, pts⟩ = MainOutcome.insufficientPoints := by
  simp [solvePhase, h]

/-- Witness for C5 at the spec's example: k = 3 with only 2 points supplied
fails with the insufficient-points error. -/
theorem claim5_witness :
    ((([⟨1, 10⟩, ⟨2, 13⟩] : List Point).length : Int) < 3) ∧
    solvePhase ⟨some 3, [⟨1, 10⟩, ⟨2, 13⟩]⟩ = MainOutcome.insufficientPoints :=
  ⟨by decide, claim5_insufficient_points [⟨1, 10⟩, ⟨2, 13⟩] 3 (by decide)⟩

/-- C8: solving is deterministic and has no hidden state — the result depends
only on the point list and on `k`, so re-running on the same immutable data
yields the identical result. -/
theorem claim8_deterministic (pts pts' : List Point) (k k' : Int)
    (hp : pts = pts') (hk : k = k') :
    findConstantWithLagrange pts k = findConstantWithLagrange pts' k' := by
  rw [hp, hk]

/-- Witness for C8: two runs on the point set (1,10), (2,13) with k = 2 agree. -/
theorem claim8_witness :
    (([⟨1, 10⟩, ⟨2, 13⟩] : List Point) = [⟨1, 10⟩, ⟨2, 13⟩] ∧ (2 : Int) = 2) ∧
    findConstantWithLagrange [⟨1, 10⟩, ⟨2, 13⟩] 2 =
      findConstantWithLagrange [⟨1, 10⟩, ⟨2, 13⟩] 2 :=
  ⟨⟨rfl, rfl⟩, claim8_deterministic [⟨1, 10⟩, ⟨2, 13⟩] [⟨1, 10⟩, ⟨2, 13⟩] 2 2 rfl rfl⟩

/-- C9: decoding the empty string returns 0 for every base — the accumulation
loop body never runs and the initial `0n` is returned, with no failure. -/
theorem claim9_empty_string (b : Int) : parseBigInt "" b = some 0 := rfl

/-- A fold over `List.range n` that skips index `j` and multiplies the two
components equals the pair of products over the indices other than `j`. -/
theorem foldl_pair_mul_range (f g : Nat → Int) (j : Nat) (n : Nat) (a b : Int) :
    (List.range n).foldl
        (fun nd i => if i = j then nd else (nd.1 * f i, nd.2 * g i)) (a, b) =
      (a * ∏ i ∈ (Finset.range n).erase j, f i,
       b * ∏ i ∈ (Finset.range n).erase j, g i) := by
  induction n with
  | zero => simp
  | succ n ih =>
    rw [List.range_succ, List.foldl_append, ih]
    by_cases hj : n = j
    · subst hj
      rw [Finset.range_succ, Finset.erase_insert Finset.not_mem_range_self]
      simp
    · have hn : n ∉ (Finset.range n).erase j := by simp
      rw [Finset.range_succ, Finset.erase_insert_of_ne hj,
        Finset.prod_insert hn, Finset.prod_insert hn]
      simp only [List.foldl_cons, List.foldl_nil, if_neg hj]
      rw [Prod.mk.injEq]
      constructor <;> ring

/-- The inner loop of the solver computes the term's numerator
`y_j * Π_{i ≠ j} x_i` and denominator `Π_{i ≠ j} (x_i - x_j)`. -/
theorem lagrangeTermND_eq (sel : List Point) (j : Nat) :
    lagrangeTermND sel j =
      ((sel.getD j ⟨0, 0⟩).y *
        ∏ i ∈ (Finset.range sel.length).erase j, (sel.getD i ⟨0, 0⟩).x,
       ∏ i ∈ (Finset.range sel.length).erase j,
        ((sel.getD i ⟨0, 0⟩).x - (sel.getD j ⟨0, 0⟩).x)) := by
  have h := foldl_pair_mul_range (fun i => (sel.getD i ⟨0, 0⟩).x)
    (fun i => (sel.getD i ⟨0, 0⟩).x - (sel.getD j ⟨0, 0⟩).x) j sel.length
    ((sel.getD j ⟨0, 0⟩).y) 1
  simpa [lagrangeTermND] using h

/-- A fold over `List.range n` that accumulates `q j` when `den j ≠ 0` and
aborts otherwise returns the full sum when no denominator vanishes. -/
theorem foldl_option_sum_range (den q : Nat → Int) (n : Nat) (a : Int)
    (h : ∀ j < n, den j ≠ 0) :
    (List.range n).foldl
        (fun acc? j => acc?.bind fun acc =>
          if den j = 0 then none else some (acc + q j)) (some a) =
      some (a + ∑ j ∈ Finset.range n, q j) := by
  induction n with
  | zero => simp
  | succ n ih =>
    rw [List.range_succ, List.foldl_append,
      ih (fun j hj => h j (Nat.lt_succ_of_lt hj))]
    simp only [List.foldl_cons, List.foldl_nil, Option.some_bind,
      if_neg (h n (Nat.lt_succ_self n))]
    rw [Finset.sum_range_succ, add_assoc]

/-- Under pairwise distinct x-coordinates every denominator is nonzero and the
solver's accumulation equals the sum of the spec-side terms. -/
theorem lagrangeOnSelected_eq_spec (sel : List Point)
    (h : sel.Pairwise fun p q => p.x ≠ q.x) :
    lagrangeOnSelected sel =
      some (∑ j ∈ Finset.range sel.length, lagrangeSpecTerm sel j) := by
  have hx : ∀ i j : Nat, i < sel.length → j < sel.length → i ≠ j →
      (sel.getD i ⟨0, 0⟩).x ≠ (sel.getD j ⟨0, 0⟩).x := by
    intro i j hi hj hij
    rw [List.getD_eq_getElem sel _ hi, List.getD_eq_getElem sel _ hj]
    rcases Nat.lt_or_ge i j with hlt | hge
    · have := List.pairwise_iff_get.mp h ⟨i, hi⟩ ⟨j, hj⟩ hlt
      simpa using this
    · have hlt : j < i := Nat.lt_of_le_of_ne hge (Ne.symm hij)
      have := List.pairwise_iff_get.mp h ⟨j, hj⟩ ⟨i, hi⟩ hlt
      simpa using this.symm
  have hden : ∀ j < sel.length,
      (∏ i ∈ (Finset.range sel.length).erase j,
        ((sel.getD i ⟨0, 0⟩).x - (sel.getD j ⟨0, 0⟩).x)) ≠ 0 := by
    intro j hj
    rw [Finset.prod_ne_zero_iff]
    intro i hi
    have hij : i ≠ j := Finset.ne_of_mem_erase hi
    have hi' : i < sel.length := Finset.mem_range.mp (Finset.mem_of_mem_erase hi)
    exact sub_ne_zero.mpr (hx i j hi' hj hij)
  have hfold := foldl_option_sum_range
    (fun j => ∏ i ∈ (Finset.range sel.length).erase j,
      ((sel.getD i ⟨0, 0⟩).x - (sel.getD j ⟨0, 0⟩).x))
    (fun j => lagrangeSpecTerm sel j) sel.length 0 hden
  rw [lagrangeOnSelected]
  rw [zero_add] at hfold
  simp only [lagrangeTermND_eq, lagrangeSpecTerm]
  simp only [lagrangeSpecTerm] at hfold
  exact hfold

/-- C1: for every point set and every k between 1 and the number of points,
with the first k points having pairwise distinct x-coordinates, solve returns
the sum over the selected points of the truncating integer quotient of
`y_j * Π_{i ≠ j} x_i` by `Π_{i ≠ j} (x_i - x_j)`, in exact integer
arithmetic, one division per term. -/
theorem claim1_lagrange_solve_spec (pts : List Point) (k : Nat)
    (hk1 : 1 ≤ k) (hk2 : k ≤ pts.length)
    (hdist : (pts.take k).Pairwise fun p q => p.x ≠ q.x) :
    findConstantWithLagrange pts (k : Int) = some (lagrangeSpecSum pts k) := by
  have hneg : ¬ ((k : Int) < 0) := not_lt.mpr (Int.natCast_nonneg k)
  have hslice : jsSliceToEnd pts (k : Int) = pts.take k := by
    rw [jsSliceToEnd, if_neg hneg, Int.toNat_natCast]
  rw [findConstantWithLagrange, hslice, lagrangeSpecSum]
  exact lagrangeOnSelected_eq_spec _ hdist

/-- Witness for C1 at the spec's example: the points (1,10), (2,13) of
`P(x) = 3x + 7` with k = 2 give the constant term 7. -/
theorem claim1_witness :
    (1 ≤ 2 ∧ 2 ≤ ([⟨1, 10⟩, ⟨2, 13⟩] : List Point).length ∧
      (([⟨1, 10⟩, ⟨2, 13⟩] : List Point).take 2).Pairwise (fun p q => p.x ≠ q.x)) ∧
    findConstantWithLagrange [⟨1, 10⟩, ⟨2, 13⟩] ((2 : Nat) : Int) =
      some (lagrangeSpecSum [⟨1, 10⟩, ⟨2, 13⟩] 2) ∧
    lagrangeSpecSum [⟨1, 10⟩, ⟨2, 13⟩] 2 = 7 :=
  ⟨⟨by decide, by decide, by decide⟩,
    claim1_lagrange_solve_spec [⟨1, 10⟩, ⟨2, 13⟩] 2 (by decide) (by decide) (by decide),
    by decide⟩

/-- C10: the Lagrange routine itself has no threshold check — called directly
with fewer points than `k` it behaves exactly as if `k` were the number of
points present (`slice(0, k)` of a shorter list is the whole list), and with
pairwise distinct x-coordinates it raises no error but returns the
interpolated constant over all present points. -/
theorem claim10_no_threshold_check (pts : List Point) (k : Int)
    (h : (pts.length : Int) ≤ k) :
    findConstantWithLagrange pts k = findConstantWithLagrange pts (pts.length : Int) ∧
    ((pts.Pairwise fun p q => p.x ≠ q.x) →
      ∃ c, findConstantWithLagrange pts k = some c) := by
  have h0 : (0 : Int) ≤ k := le_trans (Int.natCast_nonneg _) h
  have hlen : pts.length ≤ k.toNat := (Int.le_toNat h0).mpr h
  have hslice : jsSliceToEnd pts k = pts := by
    rw [jsSliceToEnd, if_neg (not_lt.mpr h0)]
    exact List.take_of_length_le hlen
  have hslice' : jsSliceToEnd pts (pts.length : Int) = pts := by
    rw [jsSliceToEnd, if_neg (not_lt.mpr (Int.natCast_nonneg _)),
      Int.toNat_natCast]
    exact List.take_length pts
  constructor
  · rw [findConstantWithLagrange, findConstantWithLagrange, hslice, hslice']
  · intro hd
    refine ⟨∑ j ∈ Finset.range pts.length, lagrangeSpecTerm pts j, ?_⟩
    rw [findConstantWithLagrange, hslice]
    exact lagrangeOnSelected_eq_spec pts hd

/-- Witness for C10: two points with k = 3 — no error, and the same result as
solving with k equal to the number of points present. -/
theorem claim10_witness :
    ((([⟨1, 10⟩, ⟨2, 13⟩] : List Point).length : Int) ≤ 3) ∧
    (findConstantWithLagrange [⟨1, 10⟩, ⟨2, 13⟩] 3 =
        findConstantWithLagrange [⟨1, 10⟩, ⟨2, 13⟩]
          (([⟨1, 10⟩, ⟨2, 13⟩] : List Point).length : Int) ∧
      ((([⟨1, 10⟩, ⟨2, 13⟩] : List Point).Pairwise fun p q => p.x ≠ q.x) →
        ∃ c, findConstantWithLagrange [⟨1, 10⟩, ⟨2, 13⟩] 3 = some c)) :=
  ⟨by decide, claim10_no_threshold_check [⟨1, 10⟩, ⟨2, 13⟩] 3 (by decide)⟩

/-- Enumeration order preserves membership: it only partitions and reorders
the entries. -/
theorem mem_jsOwnKeysOrder (entries : List (String × RawPointEntry))
    (e : String × RawPointEntry) :
    e ∈ jsOwnKeysOrder entries ↔ e ∈ entries := by
  rw [jsOwnKeysOrder, List.mem_append, (List.perm_insertionSort _ _).mem_iff]
  simp only [List.mem_filter]
  constructor
  · rintro (⟨he, _⟩ | ⟨he, _⟩) <;> exact he
  · intro he
    by_cases hp : isArrayIndexKey e.1
    · exact Or.inl ⟨he, hp⟩
    · refine Or.inr ⟨he, ?_⟩
      simp [hp]

/-- Decoding one entry fails when the base field is missing, the value field
is missing, or the key is not parseable by `BigInt`. -/
theorem decodeEntry_none (key : String) (e : RawPointEntry)
    (h : e.base = none ∨ e.value = none ∨ jsBigIntStr? key = none) :
    decodeEntry? key e = none := by
  rw [decodeEntry?]
  rcases h with hb | hv | hk
  · cases hx : jsBigIntStr? key with
    | none => rfl
    | some x => rw [hb]; rfl
  · cases hx : jsBigIntStr? key with
    | none => rfl
    | some x =>
      cases hbb : e.base.bind jsParseInt10? with
      | none => rfl
      | some b => rw [hv]; rfl
  · rw [hk]; rfl

/-- A push-style `foldlM` over `Option` fails as soon as any element fails. -/
theorem foldlM_push_none {α : Type} (g : α → Option Point) (l : List α)
    (acc : List Point) (h : ∃ e ∈ l, g e = none) :
    l.foldlM (fun pts e => (g e).map fun p => pts ++ [p]) acc = none := by
  induction l generalizing acc with
  | nil => simp at h
  | cons e l ih =>
    rw [List.foldlM_cons]
    rcases h with ⟨e', he', hnone⟩
    rcases List.mem_cons.mp he' with rfl | hmem
    · rw [hnone]; rfl
    · cases hg : g e with
      | none => rfl
      | some p => exact ih (acc ++ [p]) ⟨e', hmem, hnone⟩

/-- C6 counterexample: building succeeds although the threshold field is
absent (the "keys" object is present but `k` is missing) and also when `k` is
present but not a positive integer (`k = 0`); no StructureError occurs. -/
theorem claim6_counterexample :
    decodeFromJSON ⟨some none, []⟩ = some ⟨none, []⟩ ∧
    decodeFromJSON ⟨some (some 0), []⟩ = some ⟨some 0, []⟩ := by decide

/-- C6 amended: building fails (returns null) when the "keys" metadata object
itself is missing, or when some numeric-keyed point entry lacks a base field,
lacks a value field, or has a key `BigInt` cannot parse; a present "keys"
object with a missing or non-positive `k` is accepted unchecked. -/
theorem claim6_amended (raw : RawData)
    (h : raw.keysK = none ∨
      ∃ e ∈ raw.entries, jsIsNumericStr e.1 ∧
        (e.2.base = none ∨ e.2.value = none ∨ jsBigIntStr? e.1 = none)) :
    decodeFromJSON raw = none := by
  rcases h with hk | ⟨e, he, hnum, hbad⟩
  · rw [decodeFromJSON, hk]
  · cases hk : raw.keysK with
    | none => rw [decodeFromJSON, hk]
    | some kv =>
      rw [decodeFromJSON, hk]
      have hmem : e ∈ (jsOwnKeysOrder raw.entries).filter
          fun e => jsIsNumericStr e.1 :=
        List.mem_filter.mpr ⟨(mem_jsOwnKeysOrder _ _).mpr he, hnum⟩
      rw [foldlM_push_none (fun e => decodeEntry? e.1 e.2) _ []
        ⟨e, hmem, decodeEntry_none e.1 e.2 hbad⟩]
      rfl

/-- Witness for C6: an entry keyed "1" with no base field makes the build
fail. -/
theorem claim6_witness :
    ((⟨some (some 1), [("1", ⟨none, some "5"⟩)]⟩ : RawData).keysK = none ∨
      ∃ e ∈ (⟨some (some 1), [("1", ⟨none, some "5"⟩)]⟩ : RawData).entries,
        jsIsNumericStr e.1 ∧
          (e.2.base = none ∨ e.2.value = none ∨ jsBigIntStr? e.1 = none)) ∧
    decodeFromJSON ⟨some (some 1), [("1", ⟨none, some "5"⟩)]⟩ = none :=
  ⟨by decide, claim6_amended ⟨some (some 1), [("1", ⟨none, some "5"⟩)]⟩ (by decide)⟩

/-- An array-index key is a nonempty string of decimal digits. -/
theorem arrayIndexKey_digits {s : String} (h : isArrayIndexKey s = true) :
    s.data ≠ [] ∧ ∀ c ∈ s.data, Char.isDigit c = true := by
  rw [isArrayIndexKey, Bool.and_eq_true, Bool.and_eq_true, Bool.and_eq_true] at h
  obtain ⟨⟨⟨h1, h2⟩, _⟩, _⟩ := h
  refine ⟨?_, List.all_eq_true.mp h2⟩
  intro hnil
  rw [hnil] at h1
  exact absurd h1 (by decide)

/-- An array-index key passes the `!isNaN(key)` numeric test. -/
theorem arrayIndexKey_numeric {s : String} (h : isArrayIndexKey s = true) :
    jsIsNumericStr s = true := by
  obtain ⟨hne, hd⟩ := arrayIndexKey_digits h
  cases hcs : s.data with
  | nil => exact absurd hcs hne
  | cons c cs =>
    rw [hcs] at hd
    have hcdig : Char.isDigit c = true := hd c (List.mem_cons_self c cs)
    have hcne : ¬ (c = '-') := fun hc => by
      rw [hc] at hcdig; exact absurd hcdig (by decide)
    have hdot : ('.' : Char) ∉ c :: cs := fun hmem => by
      have := hd '.' hmem; exact absurd this (by decide)
    rw [jsIsNumericStr]
    simp only [hcs, List.isEmpty_cons, List.head?_cons]
    rw [if_neg (by simp)]
    rw [if_neg (by simp [hcne])]
    simp only [Bool.and_eq_true, decide_eq_true_eq]
    refine ⟨⟨⟨by simp, ?_⟩, ?_⟩, ?_⟩
    · rw [List.all_eq_true]
      intro x hx
      rw [Bool.or_eq_true]
      exact Or.inl (hd x hx)
    · rw [List.count_eq_zero.mpr hdot]
      exact Nat.zero_le 1
    · rw [List.any_eq_true]
      exact ⟨c, List.mem_cons_self c cs, hcdig⟩

/-- On an array-index key, `BigInt(key)` succeeds and returns the key's
decimal value. -/
theorem arrayIndexKey_bigint {s : String} (h : isArrayIndexKey s = true) :
    jsBigIntStr? s = some ((natOfDecDigits s.data : Nat) : Int) := by
  obtain ⟨hne, hd⟩ := arrayIndexKey_digits h
  cases hcs : s.data with
  | nil => exact absurd hcs hne
  | cons c cs =>
    rw [hcs] at hd
    have hcdig : Char.isDigit c = true := hd c (List.mem_cons_self c cs)
    have hcne : ¬ (c = '-') := fun hc => by
      rw [hc] at hcdig; exact absurd hcdig (by decide)
    have hall : (c :: cs).all Char.isDigit = true := List.all_eq_true.mpr hd
    rw [jsBigIntStr?]
    simp only [hcs, List.isEmpty_cons, List.head?_cons]
    rw [if_neg (by simp), if_neg (by simp [hcne]), if_pos hall]

/-- A successfully decoded entry carries `x = BigInt(key)`. -/
theorem decodeEntry_x {key : String} {e : RawPointEntry} {p : Point}
    (h : decodeEntry? key e = some p) : jsBigIntStr? key = some p.x := by
  rw [decodeEntry?] at h
  cases hx : jsBigIntStr? key with
  | none => rw [hx] at h; cases h
  | some x =>
    rw [hx] at h
    simp only [Option.some_bind] at h
    cases hy : (e.base.bind jsParseInt10?).bind
        (fun b => e.value.bind fun vs => parseBigInt vs b) with
    | none => rw [hy] at h; cases h
    | some y =>
      rw [hy] at h
      simp only [Option.map_some'] at h
      injection h with h'
      rw [← h']

/-- A push-style `foldlM` over `Option` that succeeds produces the points of
its input entries in order; their x-coordinates are the per-entry values. -/
theorem foldlM_push_some_map {α : Type} (g : α → Option Point) (v : α → Int)
    (l : List α) (acc pts : List Point)
    (hv : ∀ e ∈ l, ∀ p, g e = some p → p.x = v e)
    (h : l.foldlM (fun pts e => (g e).map fun p => pts ++ [p]) acc = some pts) :
    pts.map Point.x = acc.map Point.x ++ l.map v := by
  induction l generalizing acc with
  | nil =>
    rw [List.foldlM_nil] at h
    have hacc : acc = pts := by simpa using h
    subst hacc
    simp
  | cons e l ih =>
    rw [List.foldlM_cons] at h
    cases hg : g e with
    | none => rw [hg] at h; simp at h
    | some p =>
      rw [hg] at h
      have h' : l.foldlM (fun pts e => (g e).map fun p => pts ++ [p])
          (acc ++ [p]) = some pts := h
      have hx : p.x = v e := hv e (List.mem_cons_self e l) p hg
      rw [ih (acc ++ [p])
        (fun e' he' p' hp' => hv e' (List.mem_cons_of_mem _ he') p' hp') h']
      simp [List.map_append, hx, List.append_assoc]

/-- Helper: the slice performed by the solver on a natural `k` is `take k`. -/
theorem jsSliceToEnd_natCast (l : List Point) (k : Nat) :
    jsSliceToEnd l (k : Int) = l.take k := by
  rw [jsSliceToEnd, if_neg (not_lt.mpr (Int.natCast_nonneg k)), Int.toNat_natCast]

/-- C7 counterexample: with the numeric keys declared in the order "2", "1",
the constructed point list is numerically sorted — (1,4) then (2,7) — not the
declaration order (2,7) then (1,4) the claim predicts. -/
theorem claim7_counterexample :
    decodeFromJSON
        ⟨some (some 2),
          [("2", ⟨some "10", some "7"⟩), ("1", ⟨some "10", some "4"⟩)]⟩ =
      some ⟨some 2, [⟨1, 4⟩, ⟨2, 7⟩]⟩ ∧
    ([⟨1, 4⟩, ⟨2, 7⟩] : List Point) ≠ [⟨2, 7⟩, ⟨1, 4⟩] := by decide

/-- C7 amended: for raw input whose entry keys are array-index keys (canonical
decimal, the JSON point-index shape) with pairwise distinct values, the
constructed point list is ordered by ascending numeric key — the ECMAScript
own-property enumeration order, not the declaration order — and solve then
selects exactly the first k points of that sequence. -/
theorem claim7_amended (raw : RawData) (pd : ProcessedData) (k : Nat)
    (hall : ∀ e ∈ raw.entries, isArrayIndexKey e.1 = true)
    (hdk : (raw.entries.map fun e => natOfDecDigits e.1.data).Pairwise (· ≠ ·))
    (hdec : decodeFromJSON raw = some pd) :
    (pd.points.map Point.x).Pairwise (· < ·) ∧
    findConstantWithLagrange pd.points (k : Int) =
      lagrangeOnSelected (pd.points.take k) := by
  refine ⟨?_, by rw [findConstantWithLagrange, jsSliceToEnd_natCast]⟩
  cases hk : raw.keysK with
  | none => rw [decodeFromJSON, hk] at hdec; cases hdec
  | some kv =>
    rw [decodeFromJSON, hk] at hdec
    set r : (String × RawPointEntry) → (String × RawPointEntry) → Prop :=
      fun a b => natOfDecDigits a.1.data ≤ natOfDecDigits b.1.data with hr
    have hord : jsOwnKeysOrder raw.entries = raw.entries.insertionSort r := by
      rw [jsOwnKeysOrder, List.filter_eq_self.mpr hall]
      have : raw.entries.filter (fun e => !isArrayIndexKey e.1) = [] := by
        rw [List.filter_eq_nil_iff]
        intro e he
        simp [hall e he]
      rw [this, List.append_nil]
    have hnum : (raw.entries.insertionSort r).filter
        (fun e => jsIsNumericStr e.1) = raw.entries.insertionSort r := by
      rw [List.filter_eq_self]
      intro e he
      exact arrayIndexKey_numeric (hall e ((List.mem_insertionSort r).mp he))
    rw [hord, hnum] at hdec
    cases hfold : (raw.entries.insertionSort r).foldlM
        (fun pts e => (decodeEntry? e.1 e.2).map fun p => pts ++ [p]) [] with
    | none => rw [hfold] at hdec; cases hdec
    | some pts0 =>
      rw [hfold] at hdec
      injection hdec with hpd
      have hpts : pd.points = pts0 := by rw [← hpd]
      have hmap := foldlM_push_some_map
        (fun e => decodeEntry? e.1 e.2)
        (fun e => ((natOfDecDigits e.1.data : Nat) : Int))
        (raw.entries.insertionSort r) [] pts0
        (fun e he p hp => by
          have hb := decodeEntry_x hp
          rw [arrayIndexKey_bigint
            (hall e ((List.mem_insertionSort r).mp he))] at hb
          injection hb with hb'
          exact hb'.symm)
        hfold
      rw [List.map_nil, List.nil_append] at hmap
      haveI : IsTotal (String × RawPointEntry) r := ⟨fun a b => Nat.le_total _ _⟩
      haveI : IsTrans (String × RawPointEntry) r :=
        ⟨fun a b c hab hbc => Nat.le_trans hab hbc⟩
      have hsorted : (raw.entries.insertionSort r).Pairwise r :=
        List.sorted_insertionSort r raw.entries
      have hle : ((raw.entries.insertionSort r).map
          fun e => natOfDecDigits e.1.data).Pairwise (· ≤ ·) :=
        hsorted.map _ (fun a b hab => hab)
      have hperm : ((raw.entries.insertionSort r).map
            fun e => natOfDecDigits e.1.data).Perm
          (raw.entries.map fun e => natOfDecDigits e.1.data) :=
        (List.perm_insertionSort r raw.entries).map _
      have hne : ((raw.entries.insertionSort r).map
          fun e => natOfDecDigits e.1.data).Pairwise (· ≠ ·) :=
        (List.Perm.pairwise_iff (fun h => Ne.symm h) hperm).mpr hdk
      have hlt : ((raw.entries.insertionSort r).map
          fun e => natOfDecDigits e.1.data).Pairwise (· < ·) :=
        (hle.and hne).imp (fun h => Nat.lt_of_le_of_ne h.1 h.2)
      have hcast : ((raw.entries.insertionSort r).map
          fun e => ((natOfDecDigits e.1.data : Nat) : Int)).Pairwise (· < ·) := by
        have h2 : (((raw.entries.insertionSort r).map
              fun e => natOfDecDigits e.1.data).map
            (fun (n : Nat) => (n : Int))).Pairwise (fun (a b : Int) => a < b) :=
          hlt.map (fun (n : Nat) => (n : Int))
            (fun a b hab => Int.ofNat_lt.mpr hab)
        rw [List.map_map] at h2
        exact h2
      rw [hpts, hmap]
      exact hcast

/-- Witness for C7: keys "1", "2" declared in ascending order decode to points
with strictly increasing x, and the solver's selection is `take k`. -/
theorem claim7_witness :
    ((∀ e ∈ (⟨some (some 2),
          [("1", ⟨some "10", some "4"⟩), ("2", ⟨some "10", some "7"⟩)]⟩ :
            RawData).entries, isArrayIndexKey e.1 = true) ∧
      ((⟨some (some 2),
          [("1", ⟨some "10", some "4"⟩), ("2", ⟨some "10", some "7"⟩)]⟩ :
            RawData).entries.map fun e => natOfDecDigits e.1.data).Pairwise (· ≠ ·) ∧
      decodeFromJSON
          ⟨some (some 2),
            [("1", ⟨some "10", some "4"⟩), ("2", ⟨some "10", some "7"⟩)]⟩ =
        some ⟨some 2, [⟨1, 4⟩, ⟨2, 7⟩]⟩) ∧
    ((([⟨1, 4⟩, ⟨2, 7⟩] : List Point).map Point.x).Pairwise (· < ·) ∧
      findConstantWithLagrange [⟨1, 4⟩, ⟨2, 7⟩] ((1 : Nat) : Int) =
        lagrangeOnSelected (([⟨1, 4⟩, ⟨2, 7⟩] : List Point).take 1)) :=
  ⟨⟨by decide, by decide, by decide⟩,
    claim7_amended
      ⟨some (some 2),
        [("1", ⟨some "10", some "4"⟩), ("2", ⟨some "10", some "7"⟩)]⟩
      ⟨some 2, [⟨1, 4⟩, ⟨2, 7⟩]⟩ 1 (by decide) (by decide) (by decide)⟩

end PolySolution
